import Mathlib

/-
Shallow embedding of the Automated Financial Knowledge Graph Builder core:
  * `src/clean.py`       (DataCleaner)            -> namespace KGF, cleaning pipeline
  * `src/graph_builder.py` (Neo4jGraphBuilder)    -> graph-state model with merge semantics
  * `src/query_nl.py`    (NaturalLanguageQuery)   -> query translation and execution

Machine floats of the source (confidence values) are embedded as `Rat`: the
code only compares them, never does arithmetic on them, so the order structure
is all that matters.  Strings are ASCII-level faithful: the Python string
operations used by the code (`lower`, `upper`, `strip`, `title`, `in`) are
modelled on `Char` lists with the ASCII case maps, which agree with Python on
every input exercised by the repository.
-/

namespace KGF

set_option maxRecDepth 16384

/-! ## String helpers (Python `in`, `strip`, `title`, `isupper`, `islower`) -/

/-- Python substring test `needle in hay` on character lists. -/
def subListOf (needle : List Char) : List Char → Bool
  | [] => needle.isEmpty
  | c :: rest => needle.isPrefixOf (c :: rest) || subListOf needle rest

/-- Python `needle in hay` on strings. -/
def strContains (hay needle : String) : Bool :=
  subListOf needle.data hay.data

/-- Python `str.strip()` (ASCII whitespace). -/
def trimStr (s : String) : String :=
  String.mk (((s.data.dropWhile Char.isWhitespace).reverse.dropWhile
    Char.isWhitespace).reverse)

/-- Python `str.lower()` (ASCII case map). -/
def toLowerStr (s : String) : String := String.mk (s.data.map Char.toLower)

/-- Python `str.upper()` (ASCII case map). -/
def toUpperStr (s : String) : String := String.mk (s.data.map Char.toUpper)

/-- The apostrophe character (written by code point to keep sources plain). -/
def apos : Char := Char.ofNat 39

/-- A character stripped by Python `strip('"\'')`. -/
def isQuoteChar (c : Char) : Bool := c == '"' || c == apos

/-- Python `str.strip('"\'')`: drop quote characters from both ends. -/
def stripQuotes (l : List Char) : List Char :=
  ((l.dropWhile isQuoteChar).reverse.dropWhile isQuoteChar).reverse

/-- `re.sub(r'\s+', ' ', s)`: each maximal whitespace run becomes one space.
`inRun` records whether the run's space was already emitted. -/
def collapseWsAux (inRun : Bool) : List Char → List Char
  | [] => []
  | c :: rest =>
    if c.isWhitespace then
      if inRun then collapseWsAux true rest else ' ' :: collapseWsAux true rest
    else c :: collapseWsAux false rest

/-- `re.sub(r'\s+', ' ', s)`. -/
def collapseWs (l : List Char) : List Char := collapseWsAux false l

/-- Python `str.isupper()`: at least one cased character and no lower-case one
(ASCII: cased = alphabetic). -/
def isUpperStr (l : List Char) : Bool :=
  l.any Char.isAlpha && l.all (fun c => !c.isAlpha || c.isUpper)

/-- Python `str.islower()`. -/
def isLowerStr (l : List Char) : Bool :=
  l.any Char.isAlpha && l.all (fun c => !c.isAlpha || c.isLower)

/-- Python `str.title()`: a letter that follows a non-letter is upper-cased,
a letter that follows a letter is lower-cased.  `prevCased` records whether the
previous character was a letter. -/
def titleCaseAux (prevCased : Bool) : List Char → List Char
  | [] => []
  | c :: rest =>
    if c.isAlpha then
      (if prevCased then c.toLower else c.toUpper) :: titleCaseAux true rest
    else c :: titleCaseAux false rest

/-- Python `str.title()` on a string. -/
def titleStr (s : String) : String := String.mk (titleCaseAux false s.data)

/-! ## `src/clean.py` — DataCleaner

A pandas record is embedded as `Triplet`; a DataFrame column "exists" exactly
when some input record carries the field (pandas fills the rest with `NaN`,
embedded as `none`). -/

/-- One row of the triplet table.  Optional fields model pandas `NaN` cells. -/
structure Triplet where
  head : String
  relation : String
  tail : String
  confidence : Option Rat := none
  head_type : Option String := none
  tail_type : Option String := none
deriving Repr, DecidableEq

/-- The configuration slice `DataCleaner` reads. -/
structure CleanConfig where
  confidence_threshold : Rat
  relation_types : List String
deriving Repr, DecidableEq

/-- `DataCleaner.relation_standardization`: the synonym table, in the source's
insertion order (Python dicts iterate in insertion order). -/
def relationStandardization : List (String × String) :=
  [("acquired", "ACQUIRED"),
   ("acquisition", "ACQUIRED"),
   ("bought", "ACQUIRED"),
   ("purchased", "ACQUIRED"),
   ("invested in", "INVESTED_IN"),
   ("investment in", "INVESTED_IN"),
   ("funded", "INVESTED_IN"),
   ("launched", "LAUNCHED"),
   ("released", "LAUNCHED"),
   ("introduced", "LAUNCHED"),
   ("partnered with", "PARTNERED_WITH"),
   ("collaborated with", "PARTNERED_WITH"),
   ("ceo of", "CEO_OF"),
   ("chief executive officer of", "CEO_OF"),
   ("founded", "FOUNDED"),
   ("established", "FOUNDED"),
   ("created", "FOUNDED")]

/-- `DataCleaner._standardize_relation`.  The `none` case is the `pd.isna`
branch (a missing relation cell). -/
def standardizeRelation (relation : Option String) : String :=
  match relation with
  | none => "UNKNOWN"
  | some r =>
    let relationStr := toLowerStr (trimStr r)
    match relationStandardization.find? (fun kv => kv.1 == relationStr) with
    | some kv => kv.2
    | none =>
      match relationStandardization.find? (fun kv => strContains relationStr kv.1) with
      | some kv => kv.2
      | none => toUpperStr relationStr

/-- `DataCleaner._clean_entity_name`: strip, collapse whitespace, strip
wrapping quotes, and title-case an all-upper or all-lower name. -/
def cleanEntityName (entity : Option String) : String :=
  match entity with
  | none => ""
  | some e =>
    let s := stripQuotes (collapseWs (trimStr e).data)
    if isUpperStr s || isLowerStr s then String.mk (titleCaseAux false s)
    else String.mk s

/-- `company_patterns` of `DataCleaner._infer_entity_type`. -/
def companyPatterns : List String :=
  ["Inc", "Corp", "Ltd", "LLC", "Co.", "Company", "Group"]

/-- First check of `_infer_entity_type`: a company-suffix token occurs in the
name (case-sensitive Python `in`). -/
def companyCheck (l : List Char) : Bool :=
  companyPatterns.any (fun p => subListOf p.data l)

/-- One word of the person shape `[A-Z][a-z]+`: an upper-case letter followed
by at least one lower-case letter; returns the unconsumed rest. -/
def personWord : List Char → Option (List Char)
  | [] => none
  | c :: rest =>
    if c.isUpper && !(rest.takeWhile Char.isLower).isEmpty then
      some (rest.dropWhile Char.isLower)
    else none

/-- `re.match(r'^[A-Z][a-z]+ [A-Z][a-z]+$', s)`: two capitalized words joined
by one space, consuming the whole string. -/
def personCheck (l : List Char) : Bool :=
  match personWord l with
  | some (c :: rest) =>
    c == ' ' && (match personWord rest with
                 | some [] => true
                 | _ => false)
  | _ => false

/-- `re.search(r'\d{4}', s)`: four consecutive digits occur somewhere.  The
source's second date pattern (month name, space, `\d{4}`) is subsumed: any of
its matches contains four consecutive digits, and the first pattern is tried
first, so the disjunction collapses to this check. -/
def dateCheck : List Char → Bool
  | [] => false
  | c :: rest =>
    (c.isDigit && (rest.take 3).length == 3 && (rest.take 3).all Char.isDigit)
      || dateCheck rest

/-- `re.search(r'\$\d+', s)`: a dollar sign immediately followed by a digit. -/
def dollarCheck : List Char → Bool
  | [] => false
  | c :: rest =>
    (c == '$' && (match rest with
                  | d :: _ => d.isDigit
                  | [] => false))
      || dollarCheck rest

/-- The amount words of the pattern `\d+\s*(million|billion|trillion)`. -/
def amountWords : List String := ["million", "billion", "trillion"]

/-- The pattern `\d+\s*(million|billion|trillion)` anchored at the current
position of an already lower-cased character list. -/
def amountAt : List Char → Bool
  | [] => false
  | c :: rest =>
    c.isDigit &&
      (let afterWs := (rest.dropWhile Char.isDigit).dropWhile Char.isWhitespace
       amountWords.any (fun w => w.data.isPrefixOf afterWs))

/-- `re.search` of the amount pattern: try it at every position. -/
def amountCheck : List Char → Bool
  | [] => false
  | c :: rest => amountAt (c :: rest) || amountCheck rest

/-- The currency patterns of `_infer_entity_type`, all with `re.IGNORECASE`
(the checks on `low` are evaluated on the lower-cased copy). -/
def currencyCheck (l : List Char) : Bool :=
  let low := l.map Char.toLower
  dollarCheck l || amountCheck low
    || subListOf "usd".data low || subListOf "eur".data low

/-- `DataCleaner._infer_entity_type`: ordered checks, first match wins. -/
def inferEntityType (entity : Option String) : String :=
  match entity with
  | none => "UNKNOWN"
  | some e =>
    if companyCheck e.data then "COMPANY"
    else if personCheck e.data then "PERSON"
    else if dateCheck e.data then "DATE"
    else if currencyCheck e.data then "CURRENCY"
    else "ENTITY"

/-! ### The cleaning pipeline `DataCleaner.clean_triplets` -/

/-- The dedup key: the `subset=['head', 'relation', 'tail']` columns. -/
def tripletKey (t : Triplet) : String × String × String :=
  (t.head, t.relation, t.tail)

/-- `df.drop_duplicates(subset=..., inplace=True)` keeps the first occurrence
of each key; `seen` accumulates the keys already kept. -/
def dedupAux (seen : List (String × String × String)) : List Triplet → List Triplet
  | [] => []
  | t :: rest =>
    if tripletKey t ∈ seen then dedupAux seen rest
    else t :: dedupAux (tripletKey t :: seen) rest

/-- Step 1 of `clean_triplets`: remove duplicates. -/
def dedupTriplets (ts : List Triplet) : List Triplet := dedupAux [] ts

/-- Whether the DataFrame built from the input records has a `confidence`
column: pandas creates it when any record carries the field. -/
def hasConfidenceColumn (ts : List Triplet) : Bool :=
  ts.any (fun t => t.confidence.isSome)

/-- Whether the `head_type` column exists. -/
def hasHeadTypeColumn (ts : List Triplet) : Bool :=
  ts.any (fun t => t.head_type.isSome)

/-- Whether the `tail_type` column exists. -/
def hasTailTypeColumn (ts : List Triplet) : Bool :=
  ts.any (fun t => t.tail_type.isSome)

/-- Step 2 of `clean_triplets`: `df[df['confidence'] >= threshold]`, run only
when the `confidence` column exists.  A `NaN` cell (a record without the
field) compares false against the threshold, so it is dropped. -/
def confidenceFilterStep (threshold : Rat) (hasCol : Bool) (ts : List Triplet) :
    List Triplet :=
  if hasCol then
    ts.filter (fun t =>
      match t.confidence with
      | some c => decide (threshold ≤ c)
      | none => false)
  else ts

/-- Step 3: `df['relation'].apply(self._standardize_relation)`. -/
def standardizeStep (ts : List Triplet) : List Triplet :=
  ts.map (fun t => { t with relation := standardizeRelation (some t.relation) })

/-- Step 4: clean the `head` and `tail` columns. -/
def cleanNamesStep (ts : List Triplet) : List Triplet :=
  ts.map (fun t => { t with
    head := cleanEntityName (some t.head),
    tail := cleanEntityName (some t.tail) })

/-- Step 7: add entity types when the column is absent from the input. -/
def addTypesStep (hasHeadCol hasTailCol : Bool) (ts : List Triplet) : List Triplet :=
  ts.map (fun t =>
    { t with
      head_type := if hasHeadCol then t.head_type
                   else some (inferEntityType (some t.head)),
      tail_type := if hasTailCol then t.tail_type
                   else some (inferEntityType (some t.tail)) })

/-- May `a` stay in front of `b` in the descending sort?  `NaN` confidence
sorts last (`na_position='last'`). -/
def confKeyGE (a b : Triplet) : Bool :=
  match a.confidence, b.confidence with
  | some x, some y => decide (y ≤ x)
  | some _, none => true
  | none, some _ => false
  | none, none => true

/-- Insert into a descending-sorted list, after every element it may follow. -/
def insertDescending (x : Triplet) : List Triplet → List Triplet
  | [] => [x]
  | y :: rest =>
    if confKeyGE x y then x :: y :: rest else y :: insertDescending x rest

/-- Insertion sort by descending confidence. -/
def sortDescending : List Triplet → List Triplet
  | [] => []
  | x :: rest => insertDescending x (sortDescending rest)

/-- Step 8: `df.sort_values('confidence', ascending=False)`, run only when the
`confidence` column exists. -/
def sortByConfidenceStep (hasCol : Bool) (ts : List Triplet) : List Triplet :=
  if hasCol then sortDescending ts else ts

/-- Steps 3–8 of `clean_triplets`: everything after the confidence filter. -/
def postFilterPipeline (cfg : CleanConfig) (hasConf hasHead hasTail : Bool)
    (ts : List Triplet) : List Triplet :=
  let standardized := cleanNamesStep (standardizeStep ts)
  let validRel := standardized.filter (fun t => cfg.relation_types.contains t.relation)
  let noSelfLoop := validRel.filter (fun t => t.head != t.tail)
  sortByConfidenceStep hasConf (addTypesStep hasHead hasTail noSelfLoop)

/-- `DataCleaner.clean_triplets`: the full pipeline.  The `[]` case is the
`if not triplets` early return (and the `df.empty` check it shadows). -/
def cleanTriplets (cfg : CleanConfig) (triplets : List Triplet) : List Triplet :=
  match triplets with
  | [] => []
  | _ =>
    postFilterPipeline cfg (hasConfidenceColumn triplets)
      (hasHeadTypeColumn triplets) (hasTailTypeColumn triplets)
      (confidenceFilterStep (CleanConfig.confidence_threshold cfg)
        (hasConfidenceColumn triplets) (dedupTriplets triplets))

/-! ## `src/graph_builder.py` — Neo4jGraphBuilder

The Neo4j store is modelled as explicit state.  Nodes are keyed by `name`
(`MERGE (head:Entity «name») ...` under the uniqueness constraint), edges by
the (head name, relation type, tail name) identity
(`MERGE (headNode)-[r:RELATION «type»]->(tailNode)`).  `datetime()` is
threaded in as an abstract clock value `now`.  The per-batch `try/except`
around `session.run` is not modelled: the abstract store never fails, which
is the path the idempotence claim is about. -/

/-- Node properties: the `type` property (overwritten by `SET`) and the label
set grown by `apoc.create.addLabels` (the implicit `Entity` label is not
listed; being a node at all stands for it). -/
structure NodeProps where
  ty : String
  labels : List String
deriving Repr, DecidableEq

/-- Edge properties set on every (re-)import of the edge. -/
structure EdgeProps where
  confidence : Rat
  source : String
  created : Nat
deriving Repr, DecidableEq

/-- The graph database state.  `schemaEnsured` records whether
`_create_constraints` has run (constraints survive `DETACH DELETE`). -/
structure GraphState where
  nodes : List (String × NodeProps)
  edges : List ((String × String × String) × EdgeProps)
  schemaEnsured : Bool
deriving Repr, DecidableEq

/-- The node identities present in the store. -/
def nodeKeys (g : GraphState) : List String := g.nodes.map Prod.fst

/-- The edge identities present in the store. -/
def edgeKeys (g : GraphState) : List (String × String × String) :=
  g.edges.map Prod.fst

/-- A store with no nodes and no edges. -/
def emptyGraph : GraphState := { nodes := [], edges := [], schemaEnsured := false }

/-- `Neo4jGraphBuilder.clear_database`: `MATCH (n) DETACH DELETE n`. -/
def clearDatabase (g : GraphState) : GraphState := { g with nodes := [], edges := [] }

/-- `Neo4jGraphBuilder._create_constraints`: `CREATE CONSTRAINT IF NOT EXISTS`
and the indexes; content of the graph untouched. -/
def createConstraints (g : GraphState) : GraphState := { g with schemaEnsured := true }

/-- `apoc.create.addLabels`: add a label unless already present. -/
def addLabel (l : String) (ls : List String) : List String :=
  if l ∈ ls then ls else ls ++ [l]

/-- `MERGE (n:Entity «name»)` followed by `SET n.type` and `addLabels`:
find-or-create by name, overwrite the type property, union the label. -/
def mergeNode (name ty : String) (g : GraphState) : GraphState :=
  if name ∈ nodeKeys g then
    { g with nodes := g.nodes.map (fun p =>
        if p.1 = name then (p.1, { ty := ty, labels := addLabel ty p.2.labels }) else p) }
  else
    { g with nodes := g.nodes ++ [(name, { ty := ty, labels := addLabel ty [] })] }

/-- `MERGE (head)-[r:RELATION «type»]->(tail)` followed by `SET` of the
confidence/provenance/timestamp properties: find-or-create by identity,
overwrite the properties unconditionally. -/
def mergeEdge (key : String × String × String) (props : EdgeProps) (g : GraphState) :
    GraphState :=
  if key ∈ edgeKeys g then
    { g with edges := g.edges.map (fun p => if p.1 = key then (p.1, props) else p) }
  else
    { g with edges := g.edges ++ [(key, props)] }

/-- One `UNWIND` iteration of the `_import_batch` query, with the defaults the
Python dict preparation applies (`row.get('head_type', 'ENTITY')`,
`float(row.get('confidence', 0.8))`). -/
def importRow (now : Nat) (t : Triplet) (g : GraphState) : GraphState :=
  let g1 := mergeNode t.head (t.head_type.getD "ENTITY") g
  let g2 := mergeNode t.tail (t.tail_type.getD "ENTITY") g1
  mergeEdge (t.head, t.relation, t.tail)
    { confidence := t.confidence.getD (mkRat 8 10), source := "extracted", created := now } g2

/-- `Neo4jGraphBuilder._import_batch`: the batch's rows in order. -/
def importBatch (now : Nat) (batch : List Triplet) (g : GraphState) : GraphState :=
  batch.foldl (fun acc t => importRow now t acc) g

/-- `range(0, len(df), 100)` with `df.iloc[i:i + 100]`: the table in chunks of
at most 100 rows. -/
def toBatches : List Triplet → List (List Triplet)
  | [] => []
  | t :: rest => ((t :: rest).take 100) :: toBatches ((t :: rest).drop 100)
termination_by l => l.length
decreasing_by
  simp only [List.length_drop, List.length_cons]
  omega

/-- `Neo4jGraphBuilder.build_graph`: empty-table early return, optional clear,
constraint creation, then batched import. -/
def buildGraph (now : Nat) (df : List Triplet) (clearExisting : Bool) (g : GraphState) :
    GraphState :=
  match df with
  | [] => g
  | _ =>
    let g1 := if clearExisting then clearDatabase g else g
    let g2 := createConstraints g1
    (toBatches df).foldl (fun acc batch => importBatch now batch acc) g2

/-- `total_nodes` of `get_graph_stats`: one count per node identity. -/
def nodeCount (g : GraphState) : Nat := g.nodes.length

/-- `total_relationships` of `get_graph_stats`. -/
def edgeCount (g : GraphState) : Nat := g.edges.length

/-! ## `src/query_nl.py` — NaturalLanguageQuery

Cypher queries are embedded as their text (whitespace normalized to single
spaces; braces written by code point).  The Neo4j session is abstracted as a
function from (query, parameters) to either an error or a row list, which is
what `execute_query`'s `try/except` observes. -/

/-- The configuration slice `query_to_cypher` branches on. -/
structure NLConfig where
  llmMode : String
deriving Repr, DecidableEq

/-- A result record: an ordered field-to-value mapping. -/
def QueryRow : Type := List (String × String)

/-- Query parameters as passed to `session.run`. -/
def QueryParams : Type := List (String × String)

/-- The abstract Neo4j session: what `session.run` plus record iteration
yields for a query and parameter mapping — either raised exception text or
the row list. -/
def SessionModel : Type := String → QueryParams → Except String (List QueryRow)

/-- `NaturalLanguageQuery.query_templates`, in the source's insertion order. -/
def queryTemplates : List (String × String) :=
  [("company acquisitions",
    "MATCH (c:Company)-[r:ACQUIRED]->(target) RETURN c.name as acquirer, target.name as acquired_company, r.confidence as confidence ORDER BY r.confidence DESC LIMIT 10"),
   ("company investments",
    "MATCH (c:Company)-[r:INVESTED_IN]->(target) RETURN c.name as investor, target.name as investment, r.confidence as confidence ORDER BY r.confidence DESC LIMIT 10"),
   ("person companies",
    "MATCH (p:Person)-[r:CEO_OF]->(c:Company) RETURN p.name as person, c.name as company, r.confidence as confidence ORDER BY r.confidence DESC LIMIT 10"),
   ("product launches",
    "MATCH (c:Company)-[r:LAUNCHED]->(p:Product) RETURN c.name as company, p.name as product, r.confidence as confidence ORDER BY r.confidence DESC LIMIT 10")]

/-- The rule-based patterns of `_rule_based_conversion`.  Each regex is of the
shape `pre(.+?)suf` with `suf` possibly empty, stored as
(pre, suf, query skeleton). -/
def rulePatterns : List (String × String × String) :=
  [("what companies did ", " acquire",
    "MATCH (c:Company \x7bname: $company\x7d)-[:ACQUIRED]->(target) RETURN target.name"),
   ("who invested in ", "",
    "MATCH (investor)-[:INVESTED_IN]->(c:Company \x7bname: $company\x7d) RETURN investor.name"),
   ("what products did ", " launch",
    "MATCH (c:Company \x7bname: $company\x7d)-[:LAUNCHED]->(p:Product) RETURN p.name"),
   ("who is the ceo of ", "",
    "MATCH (p:Person)-[:CEO_OF]->(c:Company \x7bname: $company\x7d) RETURN p.name"),
   ("what companies partnered with ", "",
    "MATCH (c:Company)-[:PARTNERED_WITH]->(target:Company \x7bname: $company\x7d) RETURN c.name")]

/-- The default query of `_rule_based_conversion`: the generic fallback. -/
def genericFallbackQuery : String :=
  "MATCH (n)-[r]->(m) WHERE n.name CONTAINS $term OR m.name CONTAINS $term RETURN n.name as source, type(r) as relationship, m.name as target LIMIT 10"

/-- The lazy group `(.+?)` followed by `suf`: capture the least non-empty
chunk after which `suf` matches. -/
def growCap (suf : List Char) : List Char → Option (List Char)
  | [] => none
  | c :: rest =>
    if suf.isPrefixOf rest then some [c]
    else (growCap suf rest).map (fun cap => c :: cap)

/-- `re.search` for `pre(.+?)suf`: leftmost start wins; at a start where
`pre` matches but no extension completes, the scan moves on. -/
def searchCapture (pre suf : List Char) : List Char → Option (List Char)
  | [] => none
  | c :: rest =>
    match (if pre.isPrefixOf (c :: rest) then growCap suf ((c :: rest).drop pre.length)
           else none) with
    | some cap => some cap
    | none => searchCapture pre suf rest

/-- Python `str.replace(needle, repl)`: every non-overlapping occurrence,
left to right. -/
def replaceAll (needle repl : List Char) : List Char → List Char
  | [] => []
  | c :: rest =>
    if needle ≠ [] ∧ needle.isPrefixOf (c :: rest) then
      repl ++ replaceAll needle repl ((c :: rest).drop needle.length)
    else c :: replaceAll needle repl rest
termination_by l => l.length
decreasing_by
  · simp only [List.length_drop, List.length_cons]
    cases needle with
    | nil => simp at *
    | cons n ns => simp only [List.length_cons]; omega
  · simp only [List.length_cons]
    omega

/-- `NaturalLanguageQuery._rule_based_conversion`: ordered regex rules on the
lower-cased question; the captured entity is stripped, title-cased, wrapped
in single quotes and substituted for `$company`; no rule hit falls through to
the generic fallback query. -/
def ruleBasedConversion (question : String) : Option String :=
  let ql := toLowerStr question
  match rulePatterns.findSome? (fun r =>
      (searchCapture r.1.data r.2.1.data ql.data).map (fun cap => (r.2.2, cap))) with
  | some (skeleton, cap) =>
    let entity := titleStr (trimStr (String.mk cap))
    let quoted := String.mk (apos :: entity.data ++ [apos])
    some (String.mk (replaceAll "$company".data quoted.data skeleton.data))
  | none => some genericFallbackQuery

/-- `NaturalLanguageQuery.query_to_cypher`.  `llm` abstracts
`_llm_to_cypher` (the external model call, which may fail to `none`). -/
def queryToCypher (cfg : NLConfig) (llm : String → Option String) (question : String)
    (useLlm : Bool) : Option String :=
  let questionLower := trimStr (toLowerStr question)
  match queryTemplates.find? (fun pt => strContains questionLower pt.1) with
  | some pt => some pt.2
  | none =>
    if useLlm && cfg.llmMode == "api" then llm question
    else ruleBasedConversion question

/-- `NaturalLanguageQuery.execute_query`: run the query inside `try/except`;
any raised error is logged and turned into the empty row list.  The
`params=None` default becomes the empty mapping. -/
def executeQuery (db : SessionModel) (cypherQuery : String) (params : QueryParams) :
    List QueryRow :=
  match db cypherQuery params with
  | Except.ok records => records
  | Except.error _ => []

/-- `NaturalLanguageQuery.ask_question`: translate with `use_llm` left at its
default `False`, bail out on a falsy query (`None` or the empty string), and
execute with no parameter mapping. -/
def askQuestion (db : SessionModel) (cfg : NLConfig) (llm : String → Option String)
    (question : String) : List QueryRow :=
  match queryToCypher cfg llm question false with
  | none => []
  | some cypher => if cypher.isEmpty then [] else executeQuery db cypher []

/-- Whether a query's text references the parameter `$name`. -/
def referencesParam (q name : String) : Bool := strContains q ("$" ++ name)

/-- A faithful session for the `$term` parameter discipline: Neo4j raises
`ParameterMissing` when a query references `$term` and the mapping does not
bind it; otherwise this session returns the fixed `rows`. -/
def strictTermSession (rows : List QueryRow) : SessionModel :=
  fun q params =>
    if referencesParam q "term" && (params.lookup "term").isNone then
      Except.error "ParameterMissing: term"
    else Except.ok rows

/-! ## Concrete records used by witnesses and counterexamples -/

/-- A batch member that carries a confidence value. -/
def mixedBatchWithConf : Triplet :=
  { head := "A", relation := "r", tail := "B", confidence := some (mkRat 9 10) }

/-- A batch member that lacks a confidence value (a `NaN` cell once pandas
builds the column). -/
def mixedBatchNoConf : Triplet :=
  { head := "C", relation := "s", tail := "D" }

/-- The configuration of the source's own `__main__` test. -/
def sampleCfg : CleanConfig :=
  { confidence_threshold := mkRat 7 10,
    relation_types := ["ACQUIRED", "INVESTED_IN", "LAUNCHED", "PARTNERED_WITH"] }

/-- First duplicate of the deduplication example: (A, R, B, 0.9). -/
def dupFirst : Triplet :=
  { head := "A", relation := "R", tail := "B", confidence := some (mkRat 9 10) }

/-- Second duplicate of the deduplication example: (A, R, B, 0.5). -/
def dupSecond : Triplet :=
  { head := "A", relation := "R", tail := "B", confidence := some (mkRat 5 10) }

/-- A configuration whose closed relation set contains the standardized "R". -/
def dupCfg : CleanConfig :=
  { confidence_threshold := mkRat 7 10, relation_types := ["R"] }

/-- What `clean_triplets` makes of the deduplication example. -/
def dupResult : Triplet :=
  { head := "A", relation := "R", tail := "B", confidence := some (mkRat 9 10),
    head_type := some "ENTITY", tail_type := some "ENTITY" }

/-- A raw triplet that survives the sample pipeline. -/
def sampleRaw : Triplet :=
  { head := "Apple", relation := "acquired", tail := "DarwinAI",
    confidence := some (mkRat 9 10) }

/-- Its canonical image. -/
def sampleCanon : Triplet :=
  { head := "Apple", relation := "ACQUIRED", tail := "DarwinAI",
    confidence := some (mkRat 9 10),
    head_type := some "ENTITY", tail_type := some "ENTITY" }

/-! ## Proof helpers -/

/-- Append a key unless present: the key-set effect of a `MERGE`. -/
def addKey {α : Type} [DecidableEq α] (k : α) (ks : List α) : List α :=
  if k ∈ ks then ks else ks ++ [k]

theorem mem_addKey {α : Type} [DecidableEq α] {a k : α} {ks : List α} :
    a ∈ addKey k ks ↔ a = k ∨ a ∈ ks := by
  unfold addKey
  split
  · constructor
    · exact fun h => Or.inr h
    · rintro (rfl | h) <;> assumption
  · simp [List.mem_append, or_comm]

theorem addKey_of_mem {α : Type} [DecidableEq α] {k : α} {ks : List α} (h : k ∈ ks) :
    addKey k ks = ks := by
  unfold addKey
  exact if_pos h

/-- Lookup by key in an association list with pairwise distinct keys finds
exactly the member with that key. -/
theorem find?_eq_of_nodup_mem {β : Type} [DecidableEq β] (l : List (String × β))
    (hnd : (l.map Prod.fst).Nodup) (a : String) (v : β) (h : (a, v) ∈ l) :
    l.find? (fun kv => kv.1 == a) = some (a, v) := by
  induction l with
  | nil => cases h
  | cons kv tl ih =>
    rcases kv with ⟨k, w⟩
    simp only [List.map_cons, List.nodup_cons] at hnd
    by_cases hk : k = a
    · subst hk
      rcases List.mem_cons.mp h with heq | htl
      · rw [List.find?_cons_of_pos _ (by simp)]
        exact congrArg some heq.symm
      · exact absurd (List.mem_map_of_mem Prod.fst htl) hnd.1
    · have hne : (a, v) ≠ (k, w) := fun he => hk (congrArg Prod.fst he).symm
      rw [List.find?_cons_of_neg _ (by simp [hk])]
      exact ih hnd.2 (List.mem_cons.mp h |>.resolve_left hne)

/-! ## Claims -/

/-- C4: relation standardization lower-cases and trims the relation, returns
the mapped canonical name on an exact synonym match, otherwise the canonical
name of the first synonym key contained as a substring, otherwise the
upper-cased string; and "acquired", "bought", "ACQUISITION" all map to
"ACQUIRED". -/
theorem c4_relation_standardization :
    (∀ r v, (toLowerStr (trimStr r), v) ∈ relationStandardization →
      standardizeRelation (some r) = v)
    ∧ (∀ r kv, (∀ v, (toLowerStr (trimStr r), v) ∉ relationStandardization) →
        relationStandardization.find? (fun kv2 => strContains (toLowerStr (trimStr r)) kv2.1) = some kv →
        standardizeRelation (some r) = kv.2)
    ∧ (∀ r, (∀ v, (toLowerStr (trimStr r), v) ∉ relationStandardization) →
        relationStandardization.find? (fun kv2 => strContains (toLowerStr (trimStr r)) kv2.1) = none →
        standardizeRelation (some r) = toUpperStr (toLowerStr (trimStr r)))
    ∧ standardizeRelation (some "acquired") = "ACQUIRED"
    ∧ standardizeRelation (some "bought") = "ACQUIRED"
    ∧ standardizeRelation (some "ACQUISITION") = "ACQUIRED" := by
  have hnd : (relationStandardization.map Prod.fst).Nodup := by decide
  have hnone : ∀ r : String, (∀ v, (toLowerStr (trimStr r), v) ∉ relationStandardization) →
      relationStandardization.find? (fun kv2 => kv2.1 == toLowerStr (trimStr r)) = none := by
    intro r hno
    rw [List.find?_eq_none]
    intro x hx
    simp only [beq_iff_eq]
    intro hEq
    rcases x with ⟨x1, x2⟩
    exact hno x2 (hEq ▸ hx)
  refine ⟨?_, ?_, ?_, by decide, by decide, by decide⟩
  · intro r v h
    simp only [standardizeRelation, find?_eq_of_nodup_mem relationStandardization hnd _ v h]
  · intro r kv hno hsub
    simp only [standardizeRelation, hnone r hno, hsub]
  · intro r hno hsub
    simp only [standardizeRelation, hnone r hno, hsub]

/-- C5: entity type inference runs ordered checks — company suffix, then the
two-capitalized-word person shape, then dates, then currency, with ENTITY as
default — first match winning; and the five sample classifications hold. -/
theorem c5_entity_type_inference :
    (∀ e : String, companyCheck e.data = true → inferEntityType (some e) = "COMPANY")
    ∧ (∀ e : String, companyCheck e.data = false → personCheck e.data = true →
        inferEntityType (some e) = "PERSON")
    ∧ (∀ e : String, companyCheck e.data = false → personCheck e.data = false →
        dateCheck e.data = true → inferEntityType (some e) = "DATE")
    ∧ (∀ e : String, companyCheck e.data = false → personCheck e.data = false →
        dateCheck e.data = false → currencyCheck e.data = true →
        inferEntityType (some e) = "CURRENCY")
    ∧ (∀ e : String, companyCheck e.data = false → personCheck e.data = false →
        dateCheck e.data = false → currencyCheck e.data = false →
        inferEntityType (some e) = "ENTITY")
    ∧ inferEntityType (some "Tim Cook") = "PERSON"
    ∧ inferEntityType (some "Apple Inc") = "COMPANY"
    ∧ inferEntityType (some "$100 million") = "CURRENCY"
    ∧ inferEntityType (some "January 2024") = "DATE"
    ∧ inferEntityType (some "DarwinAI") = "ENTITY" := by
  refine ⟨?_, ?_, ?_, ?_, ?_, by decide, by decide, by decide, by decide, by decide⟩
  · intro e h1
    simp [inferEntityType, h1]
  · intro e h1 h2
    simp [inferEntityType, h1, h2]
  · intro e h1 h2 h3
    simp [inferEntityType, h1, h2, h3]
  · intro e h1 h2 h3 h4
    simp [inferEntityType, h1, h2, h3, h4]
  · intro e h1 h2 h3 h4
    simp [inferEntityType, h1, h2, h3, h4]

/-- C5 witness: the ordered-check clauses discharged at "Apple Inc". -/
theorem c5_entity_type_inference_witness :
    inferEntityType (some "Apple Inc") = "COMPANY" :=
  c5_entity_type_inference.1 "Apple Inc" (by decide)

/-- C2 counterexample: in a batch where another triplet carries a confidence
value, a triplet lacking one is not unconditionally accepted — it is dropped
by the confidence filter (its pandas `NaN` cell fails `>= threshold`). -/
theorem c2_missing_confidence_dropped :
    mixedBatchNoConf ∈ dedupTriplets [mixedBatchWithConf, mixedBatchNoConf]
    ∧ mixedBatchNoConf.confidence = none
    ∧ mixedBatchNoConf ∉
        confidenceFilterStep (mkRat 7 10)
          (hasConfidenceColumn [mixedBatchWithConf, mixedBatchNoConf])
          (dedupTriplets [mixedBatchWithConf, mixedBatchNoConf]) := by
  decide

/-- C2 (amended): a triplet of the deduplicated batch survives the confidence
filter iff either no triplet of the input batch carries a confidence value
(the column is absent, so the filter is skipped) or its own confidence is
present and at least the threshold (inclusive boundary); a triplet lacking a
confidence value is dropped whenever the batch has the column. -/
theorem c2_confidence_filter_semantics (cfg : CleanConfig) (ts : List Triplet)
    (t : Triplet) :
    t ∈ confidenceFilterStep cfg.confidence_threshold (hasConfidenceColumn ts)
        (dedupTriplets ts)
      ↔ t ∈ dedupTriplets ts ∧
          (hasConfidenceColumn ts = false ∨
            ∃ c, t.confidence = some c ∧ cfg.confidence_threshold ≤ c) := by
  unfold confidenceFilterStep
  cases hcol : hasConfidenceColumn ts with
  | false => simp
  | true =>
    simp only [if_true, List.mem_filter, Bool.true_eq_false, false_or]
    refine and_congr_right fun _ => ?_
    cases ht : t.confidence with
    | none => simp [ht]
    | some c => simp [ht]

/-- C10: building from an empty canonical table returns immediately — even
with the clear flag set, nothing is cleared, no constraints are created, and
the store state is exactly unchanged. -/
theorem c10_empty_table_build_noop (now : Nat) (flag : Bool) (g : GraphState) :
    buildGraph now [] flag g = g := rfl

/-- C9: `execute_query` never propagates an exception — a query returning zero
rows yields the empty row list (not an error), a successful query yields its
rows, and a failing query also yields the empty row list. -/
theorem c9_execute_query_never_raises (db : SessionModel) (q : String)
    (p : QueryParams) :
    (db q p = Except.ok [] → executeQuery db q p = [])
    ∧ (∀ e, db q p = Except.error e → executeQuery db q p = [])
    ∧ (∀ rows, db q p = Except.ok rows → executeQuery db q p = rows) := by
  refine ⟨fun h => ?_, fun e h => ?_, fun rows h => ?_⟩ <;> simp [executeQuery, h]

/-- C9 witness: a malformed query whose session raises is turned into the
empty row list. -/
theorem c9_execute_query_never_raises_witness :
    executeQuery (fun _ _ => Except.error "SyntaxError") "MATCH (" [] = [] :=
  (c9_execute_query_never_raises (fun _ _ => Except.error "SyntaxError")
    "MATCH (" []).2.1 "SyntaxError" rfl

/-- C3: on a question matching no template and no rule, translation does
return the generic fallback query, but that query is a fixed string that
references the unbound parameter `$term` and does not contain the question
text, and `ask_question` executes it with an empty parameter mapping — so the
execution fails on the missing parameter and yields no rows, even over a
store that would answer the query. -/
theorem c3_fallback_never_binds_term :
    queryToCypher { llmMode := "local" } (fun _ => none) "show me everything" false
        = some genericFallbackQuery
    ∧ referencesParam genericFallbackQuery "term" = true
    ∧ strContains genericFallbackQuery "show me everything" = false
    ∧ askQuestion
        (strictTermSession [[("source", "Apple"), ("relationship", "ACQUIRED"),
                             ("target", "DarwinAI")]])
        { llmMode := "local" } (fun _ => none) "show me everything" = [] :=
  ⟨rfl, rfl, rfl, rfl⟩

/-- C6: a question whose lower-cased trimmed text contains a template phrase
is answered by that template's fixed query, for every configuration, external
model and `use_llm` flag — the rule-based, model and fallback paths are never
consulted. -/
theorem c6_template_precedence (cfg : NLConfig) (llm : String → Option String)
    (question : String) (useLlm : Bool)
    (h : queryTemplates.any (fun pt => strContains (trimStr (toLowerStr question)) pt.1) = true) :
    ∃ pt, pt ∈ queryTemplates ∧ strContains (trimStr (toLowerStr question)) pt.1 = true ∧
      queryToCypher cfg llm question useLlm = some pt.2 := by
  have hsome : (queryTemplates.find? (fun pt => strContains (trimStr (toLowerStr question)) pt.1)).isSome := by
    rw [List.find?_isSome]
    obtain ⟨pt, hmem, hp⟩ := List.any_eq_true.mp h
    exact ⟨pt, hmem, hp⟩
  obtain ⟨pt, hpt⟩ := Option.isSome_iff_exists.mp hsome
  have hp : strContains (trimStr (toLowerStr question)) pt.1 = true := by
    simpa using List.find?_some hpt
  refine ⟨pt, List.mem_of_find?_eq_some hpt, hp, ?_⟩
  simp only [queryToCypher, hpt]

/-- C6 witness: a question containing "company acquisitions" resolves to the
acquisitions template even with the model path enabled and a model standing
by. -/
theorem c6_template_precedence_witness :
    ∃ pt, pt ∈ queryTemplates ∧
      strContains (trimStr (toLowerStr "Show me all Company Acquisitions")) pt.1 = true ∧
      queryToCypher { llmMode := "api" } (fun _ => some "LLM RESULT")
        "Show me all Company Acquisitions" true = some pt.2 :=
  c6_template_precedence { llmMode := "api" } (fun _ => some "LLM RESULT")
    "Show me all Company Acquisitions" true (by decide)

theorem mem_insertDescending {t x : Triplet} {l : List Triplet} :
    t ∈ insertDescending x l ↔ t = x ∨ t ∈ l := by
  induction l with
  | nil => simp [insertDescending]
  | cons y ys ih =>
    unfold insertDescending
    split
    · simp [List.mem_cons]
    · simp only [List.mem_cons, ih]
      tauto

theorem mem_sortDescending {t : Triplet} {l : List Triplet} :
    t ∈ sortDescending l ↔ t ∈ l := by
  induction l with
  | nil => simp [sortDescending]
  | cons x xs ih =>
    simp [sortDescending, mem_insertDescending, ih]

theorem mem_sortByConfidenceStep {t : Triplet} {b : Bool} {l : List Triplet} :
    t ∈ sortByConfidenceStep b l ↔ t ∈ l := by
  unfold sortByConfidenceStep
  split
  · exact mem_sortDescending
  · exact Iff.rfl

/-- C7: every record of the Normalizer's output satisfies head ≠ tail after
entity-name cleaning — the self-loop filter runs after cleaning, and the
later steps (type addition, sorting) preserve the heads and tails. -/
theorem c7_no_self_loops (cfg : CleanConfig) (ts : List Triplet) (t : Triplet)
    (h : t ∈ cleanTriplets cfg ts) : t.head ≠ t.tail := by
  match ts with
  | [] => simp [cleanTriplets] at h
  | t0 :: rest =>
    simp only [cleanTriplets, postFilterPipeline] at h
    rw [mem_sortByConfidenceStep] at h
    unfold addTypesStep at h
    obtain ⟨s, hs, rfl⟩ := List.mem_map.mp h
    have hfilter := (List.mem_filter.mp hs).2
    simpa using bne_iff_ne.mp hfilter

/-- C7 witness: the self-loop invariant at the sample pipeline run. -/
theorem c7_no_self_loops_witness : sampleCanon.head ≠ sampleCanon.tail :=
  c7_no_self_loops sampleCfg [sampleRaw] sampleCanon (by decide)

theorem dedupAux_keys_nodup (seen : List (String × String × String))
    (ts : List Triplet) :
    ((dedupAux seen ts).map tripletKey).Nodup ∧
      ∀ k ∈ (dedupAux seen ts).map tripletKey, k ∉ seen := by
  induction ts generalizing seen with
  | nil => simp [dedupAux]
  | cons t rest ih =>
    unfold dedupAux
    split
    · exact ⟨(ih seen).1, (ih seen).2⟩
    · rename_i hnot
      have ih' := ih (tripletKey t :: seen)
      constructor
      · simp only [List.map_cons, List.nodup_cons]
        refine ⟨fun hcontra => ?_, ih'.1⟩
        exact (ih'.2 _ hcontra) (List.mem_cons_self _ _)
      · intro k hk
        simp only [List.map_cons, List.mem_cons] at hk
        rcases hk with rfl | hk
        · exact hnot
        · exact fun hks => (ih'.2 k hk) (List.mem_cons_of_mem _ hks)

theorem dedupAux_find?_eq (seen : List (String × String × String))
    (ts : List Triplet) (k : String × String × String) (hk : k ∉ seen) :
    (dedupAux seen ts).find? (fun t => decide (tripletKey t = k))
      = ts.find? (fun t => decide (tripletKey t = k)) := by
  induction ts generalizing seen with
  | nil => rfl
  | cons t rest ih =>
    unfold dedupAux
    split
    · rename_i hmem
      have hne : tripletKey t ≠ k := fun he => hk (he ▸ hmem)
      rw [List.find?_cons_of_neg _ (by simp [hne])]
      exact ih seen hk
    · rename_i hnot
      by_cases hkey : tripletKey t = k
      · simp [List.find?_cons, hkey]
      · simp only [List.find?_cons, hkey, decide_False]
        refine ih (tripletKey t :: seen) fun hc => ?_
        rcases List.mem_cons.mp hc with he | hs
        · exact hkey he.symm
        · exact hk hs

/-- C8: the Normalizer deduplicates on the exact (head, relation, tail) tuple
— one surviving record per key, found by key lookup to be exactly the first
occurrence of the input with its fields — and the deduplication sits before
the confidence filter in the pipeline; on the concrete pair
(A,R,B,0.9), (A,R,B,0.5) exactly the first record survives, through the full
Normalizer as well. -/
theorem c8_dedup_first_occurrence :
    (∀ ts : List Triplet, ((dedupTriplets ts).map tripletKey).Nodup)
    ∧ (∀ (ts : List Triplet) (k : String × String × String),
        (dedupTriplets ts).find? (fun t => decide (tripletKey t = k))
          = ts.find? (fun t => decide (tripletKey t = k)))
    ∧ (∀ (cfg : CleanConfig) (t0 : Triplet) (rest : List Triplet),
        cleanTriplets cfg (t0 :: rest)
          = postFilterPipeline cfg (hasConfidenceColumn (t0 :: rest))
              (hasHeadTypeColumn (t0 :: rest)) (hasTailTypeColumn (t0 :: rest))
              (confidenceFilterStep cfg.confidence_threshold
                (hasConfidenceColumn (t0 :: rest)) (dedupTriplets (t0 :: rest))))
    ∧ dedupTriplets [dupFirst, dupSecond] = [dupFirst]
    ∧ cleanTriplets dupCfg [dupFirst, dupSecond] = [dupResult] := by
  refine ⟨fun ts => (dedupAux_keys_nodup [] ts).1,
          fun ts k => dedupAux_find?_eq [] ts k (by simp),
          fun cfg t0 rest => rfl, by decide, by decide⟩

theorem map_fst_map_preserving {α β : Type} (f : α × β → α × β)
    (hf : ∀ p, (f p).1 = p.1) (l : List (α × β)) :
    (l.map f).map Prod.fst = l.map Prod.fst := by
  induction l with
  | nil => rfl
  | cons p ps ih => simp [hf, ih]

theorem nodeKeys_mergeNode (name ty : String) (g : GraphState) :
    nodeKeys (mergeNode name ty g) = addKey name (nodeKeys g) := by
  unfold mergeNode addKey
  split
  · simp only [nodeKeys]
    exact map_fst_map_preserving _ (fun p => by split <;> rfl) g.nodes
  · simp [nodeKeys]

theorem edgeKeys_mergeNode (name ty : String) (g : GraphState) :
    edgeKeys (mergeNode name ty g) = edgeKeys g := by
  unfold mergeNode
  split <;> rfl

theorem edgeKeys_mergeEdge (k : String × String × String) (props : EdgeProps)
    (g : GraphState) :
    edgeKeys (mergeEdge k props g) = addKey k (edgeKeys g) := by
  unfold mergeEdge addKey
  split
  · simp only [edgeKeys]
    exact map_fst_map_preserving _ (fun p => by split <;> rfl) g.edges
  · simp [edgeKeys]

theorem nodeKeys_mergeEdge (k : String × String × String) (props : EdgeProps)
    (g : GraphState) :
    nodeKeys (mergeEdge k props g) = nodeKeys g := by
  unfold mergeEdge
  split <;> rfl

theorem nodeKeys_importRow (now : Nat) (t : Triplet) (g : GraphState) :
    nodeKeys (importRow now t g)
      = addKey t.tail (addKey t.head (nodeKeys g)) := by
  simp only [importRow]
  rw [nodeKeys_mergeEdge, nodeKeys_mergeNode, nodeKeys_mergeNode]

theorem edgeKeys_importRow (now : Nat) (t : Triplet) (g : GraphState) :
    edgeKeys (importRow now t g)
      = addKey (t.head, t.relation, t.tail) (edgeKeys g) := by
  simp only [importRow]
  rw [edgeKeys_mergeEdge, edgeKeys_mergeNode, edgeKeys_mergeNode]

theorem importBatch_cons (now : Nat) (t : Triplet) (rest : List Triplet)
    (g : GraphState) :
    importBatch now (t :: rest) g = importBatch now rest (importRow now t g) := rfl

theorem nodeKeys_importBatch_mem (now : Nat) (rows : List Triplet) :
    ∀ (g : GraphState) (k : String),
      k ∈ nodeKeys (importBatch now rows g)
        ↔ (∃ t ∈ rows, k = t.head ∨ k = t.tail) ∨ k ∈ nodeKeys g := by
  induction rows with
  | nil => intro g k; simp [importBatch]
  | cons t rest ih =>
    intro g k
    rw [importBatch_cons, ih, nodeKeys_importRow]
    simp only [mem_addKey]
    constructor
    · rintro (⟨t', ht', hk⟩ | (rfl | rfl | hg))
      · exact Or.inl ⟨t', List.mem_cons_of_mem _ ht', hk⟩
      · exact Or.inl ⟨t, List.mem_cons_self _ _, Or.inr rfl⟩
      · exact Or.inl ⟨t, List.mem_cons_self _ _, Or.inl rfl⟩
      · exact Or.inr hg
    · rintro (⟨t', ht', hk⟩ | hg)
      · rcases List.mem_cons.mp ht' with rfl | ht'
        · rcases hk with rfl | rfl
          · exact Or.inr (Or.inr (Or.inl rfl))
          · exact Or.inr (Or.inl rfl)
        · exact Or.inl ⟨t', ht', hk⟩
      · exact Or.inr (Or.inr (Or.inr hg))

theorem nodeKeys_importBatch_stable (now : Nat) (rows : List Triplet) :
    ∀ (g : GraphState),
      (∀ t ∈ rows, t.head ∈ nodeKeys g ∧ t.tail ∈ nodeKeys g) →
      nodeKeys (importBatch now rows g) = nodeKeys g := by
  induction rows with
  | nil => intro g _; rfl
  | cons t rest ih =>
    intro g hall
    have hhead := (hall t (List.mem_cons_self _ _)).1
    have htail := (hall t (List.mem_cons_self _ _)).2
    have hrow : nodeKeys (importRow now t g) = nodeKeys g := by
      rw [nodeKeys_importRow, addKey_of_mem hhead, addKey_of_mem htail]
    rw [importBatch_cons,
        ih (importRow now t g)
          (by rw [hrow]; exact fun s hs => hall s (List.mem_cons_of_mem _ hs)),
        hrow]

theorem edgeKeys_importBatch_mem (now : Nat) (rows : List Triplet) :
    ∀ (g : GraphState) (k : String × String × String),
      k ∈ edgeKeys (importBatch now rows g)
        ↔ (∃ t ∈ rows, k = (t.head, t.relation, t.tail)) ∨ k ∈ edgeKeys g := by
  induction rows with
  | nil => intro g k; simp [importBatch]
  | cons t rest ih =>
    intro g k
    rw [importBatch_cons, ih, edgeKeys_importRow]
    simp only [mem_addKey]
    constructor
    · rintro (⟨t', ht', hk⟩ | (rfl | hg))
      · exact Or.inl ⟨t', List.mem_cons_of_mem _ ht', hk⟩
      · exact Or.inl ⟨t, List.mem_cons_self _ _, rfl⟩
      · exact Or.inr hg
    · rintro (⟨t', ht', hk⟩ | hg)
      · rcases List.mem_cons.mp ht' with rfl | ht'
        · exact Or.inr (Or.inl hk)
        · exact Or.inl ⟨t', ht', hk⟩
      · exact Or.inr (Or.inr hg)

theorem edgeKeys_importBatch_stable (now : Nat) (rows : List Triplet) :
    ∀ (g : GraphState),
      (∀ t ∈ rows, (t.head, t.relation, t.tail) ∈ edgeKeys g) →
      edgeKeys (importBatch now rows g) = edgeKeys g := by
  induction rows with
  | nil => intro g _; rfl
  | cons t rest ih =>
    intro g hall
    have hedge := hall t (List.mem_cons_self _ _)
    have hrow : edgeKeys (importRow now t g) = edgeKeys g := by
      rw [edgeKeys_importRow, addKey_of_mem hedge]
    rw [importBatch_cons,
        ih (importRow now t g)
          (by rw [hrow]; exact fun s hs => hall s (List.mem_cons_of_mem _ hs)),
        hrow]

theorem foldl_toBatches (now : Nat) :
    ∀ (n : Nat) (l : List Triplet), l.length ≤ n → ∀ (g : GraphState),
      (toBatches l).foldl (fun acc b => importBatch now b acc) g
        = importBatch now l g := by
  intro n
  induction n with
  | zero =>
    intro l hl g
    have : l = [] := List.eq_nil_of_length_eq_zero (Nat.le_zero.mp hl)
    subst this
    simp [toBatches, importBatch]
  | succ n ih =>
    intro l hl g
    match l with
    | [] => simp [toBatches, importBatch]
    | t :: rest =>
      rw [toBatches]
      simp only [List.foldl_cons]
      rw [ih ((t :: rest).drop 100)
            (by simp only [List.length_drop, List.length_cons]
                simp only [List.length_cons] at hl
                omega)]
      unfold importBatch
      rw [← List.foldl_append, List.take_append_drop]

theorem buildGraph_eq_importBatch (now : Nat) (t0 : Triplet) (rest : List Triplet)
    (flag : Bool) (g : GraphState) :
    buildGraph now (t0 :: rest) flag g
      = importBatch now (t0 :: rest)
          (createConstraints (if flag then clearDatabase g else g)) := by
  simp only [buildGraph]
  exact foldl_toBatches now (t0 :: rest).length (t0 :: rest) le_rfl _

theorem nodeCount_eq_length_nodeKeys (g : GraphState) :
    nodeCount g = (nodeKeys g).length := (List.length_map _ _).symm

theorem edgeCount_eq_length_edgeKeys (g : GraphState) :
    edgeCount g = (edgeKeys g).length := (List.length_map _ _).symm

/-- C1: rebuilding an unchanged canonical table into the graph it already
produced (first build into an empty store, second build without clearing)
changes neither the node count nor the edge count: nodes merge by name, edges
by the (head, relation, tail) identity. -/
theorem c1_rebuild_preserves_counts (now1 now2 : Nat) (T : List Triplet)
    (flag : Bool) :
    nodeCount (buildGraph now2 T false (buildGraph now1 T flag emptyGraph))
        = nodeCount (buildGraph now1 T flag emptyGraph)
    ∧ edgeCount (buildGraph now2 T false (buildGraph now1 T flag emptyGraph))
        = edgeCount (buildGraph now1 T flag emptyGraph) := by
  match T with
  | [] => exact ⟨rfl, rfl⟩
  | t0 :: rest =>
    have hg1 : buildGraph now1 (t0 :: rest) flag emptyGraph
        = importBatch now1 (t0 :: rest)
            (createConstraints (if flag then clearDatabase emptyGraph else emptyGraph)) :=
      buildGraph_eq_importBatch now1 t0 rest flag emptyGraph
    have hg2 : buildGraph now2 (t0 :: rest) false
          (buildGraph now1 (t0 :: rest) flag emptyGraph)
        = importBatch now2 (t0 :: rest)
            (createConstraints (buildGraph now1 (t0 :: rest) flag emptyGraph)) :=
      buildGraph_eq_importBatch now2 t0 rest false _
    have hnodesPresent : ∀ s ∈ (t0 :: rest),
        s.head ∈ nodeKeys (buildGraph now1 (t0 :: rest) flag emptyGraph)
        ∧ s.tail ∈ nodeKeys (buildGraph now1 (t0 :: rest) flag emptyGraph) := by
      intro s hs
      rw [hg1]
      exact ⟨(nodeKeys_importBatch_mem now1 (t0 :: rest) _ _).mpr
               (Or.inl ⟨s, hs, Or.inl rfl⟩),
             (nodeKeys_importBatch_mem now1 (t0 :: rest) _ _).mpr
               (Or.inl ⟨s, hs, Or.inr rfl⟩)⟩
    have hedgesPresent : ∀ s ∈ (t0 :: rest),
        (s.head, s.relation, s.tail)
          ∈ edgeKeys (buildGraph now1 (t0 :: rest) flag emptyGraph) := by
      intro s hs
      rw [hg1]
      exact (edgeKeys_importBatch_mem now1 (t0 :: rest) _ _).mpr
        (Or.inl ⟨s, hs, rfl⟩)
    have hconstrNodes :
        nodeKeys (createConstraints (buildGraph now1 (t0 :: rest) flag emptyGraph))
          = nodeKeys (buildGraph now1 (t0 :: rest) flag emptyGraph) := rfl
    have hconstrEdges :
        edgeKeys (createConstraints (buildGraph now1 (t0 :: rest) flag emptyGraph))
          = edgeKeys (buildGraph now1 (t0 :: rest) flag emptyGraph) := rfl
    constructor
    · rw [nodeCount_eq_length_nodeKeys, nodeCount_eq_length_nodeKeys, hg2,
          nodeKeys_importBatch_stable now2 (t0 :: rest) _
            (by rw [hconstrNodes]; exact hnodesPresent),
          hconstrNodes]
    · rw [edgeCount_eq_length_edgeKeys, edgeCount_eq_length_edgeKeys, hg2,
          edgeKeys_importBatch_stable now2 (t0 :: rest) _
            (by rw [hconstrEdges]; exact hedgesPresent),
          hconstrEdges]

end KGF
